import Mathlib

/-!
Verification of the Gemscap quant-dashboard analytics pipeline.

The module-level pipeline of `app.py` (pair alignment, the price-bar pivot,
the ADF verdict, the z-score alert, the Start/Stop button handlers) is
embedded directly from the source.  The `analytics`, `ingestion` and
`storage` modules imported by `app.py` are not part of the repository
snapshot; their operations (`prepare_df`, `spread_and_hedge`, `zscore`,
`rolling_correlation`, `resample_ohlc`, `start_stream`, `stop_stream`) are
modelled from the specification, as marked on each definition.

Numeric convention: Python floats are embedded as `ℚ`; values that are NaN
in the float world (warm-up entries, zero-variance windows) are `none` in an
`Option`-valued series.  The square root inside the z-score and correlation
formulas is `Real.sqrt`, so those two series carry `Option ℝ` payloads; the
missing/defined structure stays decidable.
-/

namespace Gemscap

/-- One trade event, as stored by the tick store (`symbol, timestamp, price, qty`). -/
structure Tick where
  symbol : String
  timestamp : Nat
  price : ℚ
  qty : ℚ
deriving DecidableEq

/-- One OHLC aggregate over a timeframe bucket.  The source column `open` is a
Lean keyword, so the field is named `op`. -/
structure Bar where
  timestamp : Nat
  op : ℚ
  high : ℚ
  low : ℚ
  close : ℚ
deriving DecidableEq

/-- Ordering of ticks by timestamp, the sort key of `sort_values("timestamp")`. -/
def tsLE (a b : Tick) : Prop := a.timestamp ≤ b.timestamp

instance : DecidableRel tsLE := fun a b => Nat.decLe a.timestamp b.timestamp

instance : IsTotal Tick tsLE := ⟨fun a b => Nat.le_total a.timestamp b.timestamp⟩

instance : IsTrans Tick tsLE := ⟨fun _ _ _ h h2 => Nat.le_trans h h2⟩

/-- Sort a tick list by timestamp (stable). -/
def sortByTs (l : List Tick) : List Tick := l.insertionSort tsLE

/-- Modelled from the spec: `prepare_df` (absent `analytics` module) returns the
normalized tick table sorted by timestamp. -/
def prepare_df (rows : List Tick) : List Tick := sortByTs rows

/-- `df[df["symbol"] == s].sort_values("timestamp")` from app.py lines 159-160. -/
def seriesFor (rows : List Tick) (s : String) : List Tick :=
  sortByTs ((prepare_df rows).filter (fun t => t.symbol == s))

/-- The pair-alignment block of app.py lines 162-163:
`n = min(len(df1), len(df2)); df1, df2 = df1.iloc[-n:], df2.iloc[-n:]`.
For `n > 0`, `iloc[-n:]` keeps the last `n` rows, i.e. drops the `len - n`
oldest ones.  For `n = 0` (at least one series empty), Python has `-0 == 0`,
so `iloc[-0:]` is `iloc[0:]` and keeps the whole frame: neither series is
truncated in that case. -/
def alignPair (A B : List Tick) : List Tick × List Tick :=
  let n := min A.length B.length
  if n = 0 then (A, B)
  else (A.drop (A.length - n), B.drop (B.length - n))

/-- Arithmetic mean of a series (`0` on the empty series, as `x / 0 = 0` in `ℚ`). -/
def mean (l : List ℚ) : ℚ := l.sum / l.length

/-- Sum of squared deviations from the mean. -/
def sqDevSum (l : List ℚ) : ℚ := (l.map (fun x => (x - mean l) ^ 2)).sum

/-- Sum of products of deviations of two series from their means. -/
def coDevSum (A B : List ℚ) : ℚ :=
  (List.zipWith (fun a b => (a - mean A) * (b - mean B)) A B).sum

/-- Rolling sample variance of a full window (`ddof = 1`); the length-one
window yields `0/0 = 0` in `ℚ`, which the consumers below treat as missing,
matching the NaN a sample standard deviation of one point produces. -/
def svar (l : List ℚ) : ℚ := sqDevSum l / ((l.length : ℚ) - 1)

/-- Sample covariance of two windows (`ddof = 1`). -/
def scov (A B : List ℚ) : ℚ :=
  coDevSum A B / ((min A.length B.length : ℚ) - 1)

/-- Error taxonomy of the analytics layer. -/
inductive AErr where
  | insufficientData
deriving DecidableEq

/-- Modelled from the spec: `spread_and_hedge` (absent `analytics` module)
regresses `priceA` on `priceB` by ordinary least squares; the hedge value is
the regression slope and `spread[i] = priceA[i] - slope * priceB[i]`.  Fewer
than 2 aligned points fail with `InsufficientDataError`. -/
def spread_and_hedge (A B : List ℚ) : Except AErr (List ℚ × ℚ) :=
  if A.length < 2 ∨ B.length < 2 then .error .insufficientData
  else
    let h := coDevSum A B / sqDevSum B
    .ok (List.zipWith (fun a b => a - h * b) A B, h)

/-- The trailing window of `w` points ending at index `i` (inclusive). -/
def windowAt (l : List ℚ) (w i : Nat) : List ℚ := (l.take (i + 1)).drop (i + 1 - w)

/-- Modelled from the spec: `zscore` (absent `analytics` module).
`z[i] = (series[i] - rolling_mean[i]) / rolling_std[i]` over a trailing window
of `w` points; the first `w - 1` entries and the entries whose rolling
standard deviation is exactly zero are missing (`none`), not zero, not an
error and not infinity. -/
noncomputable def zscore (l : List ℚ) (w : Nat) : List (Option ℝ) :=
  (List.range l.length).map (fun i =>
    if i + 1 < w then none
    else
      let win := windowAt l w i
      if svar win = 0 then none
      else some (((l.getD i 0 - mean win : ℚ) : ℝ) / Real.sqrt ((svar win : ℚ) : ℝ)))

/-- Modelled from the spec: `rolling_correlation` (absent `analytics` module),
Pearson correlation over the same trailing window, with the same missing-value
policy for the warm-up period and for zero-variance windows. -/
noncomputable def rolling_correlation (A B : List ℚ) (w : Nat) : List (Option ℝ) :=
  (List.range (min A.length B.length)).map (fun i =>
    if i + 1 < w then none
    else
      let wa := windowAt A w i
      let wb := windowAt B w i
      if svar wa = 0 ∨ svar wb = 0 then none
      else some (((scov wa wb : ℚ) : ℝ) /
        (Real.sqrt ((svar wa : ℚ) : ℝ) * Real.sqrt ((svar wb : ℚ) : ℝ))))

/-- Bucket start of a timestamp: `floor(timestamp / bucket_ms) * bucket_ms`. -/
def bucketStart (m ts : Nat) : Nat := ts / m * m

/-- Modelled from the spec: `resample_ohlc` (absent `analytics` module).
Sort by timestamp, bucket each tick into `floor(ts / m) * m`, and emit one bar
per non-empty bucket with `open`/`close` the first/last price of the bucket
and `high`/`low` its max/min; output ascending, empty buckets omitted. -/
def resample_ohlc (ticks : List Tick) (m : Nat) : List Bar :=
  let sorted := sortByTs ticks
  ((sorted.map (fun t => bucketStart m t.timestamp)).dedup).filterMap (fun k =>
    match (sorted.filter (fun t => bucketStart m t.timestamp == k)).map Tick.price with
    | [] => none
    | p :: ps => some ⟨k, p, ps.foldl max p, ps.foldl min p, ps.getLastD p⟩)

/-- The per-symbol resample loop of app.py lines 134-141: one tagged bar list
per configured symbol, concatenated. -/
def priceBarsFor (df : List Tick) (syms : List String) (m : Nat) : List (String × Bar) :=
  syms.flatMap (fun sym =>
    (resample_ohlc (df.filter (fun t => t.symbol == sym)) m).map (fun b => (sym, b)))

/-- The pivot index of app.py lines 143-152: the sorted distinct bar
timestamps across all configured symbols. -/
def pivotTimestamps (pb : List (String × Bar)) : List Nat :=
  ((pb.map (fun x => x.2.timestamp)).dedup).insertionSort (· ≤ ·)

/-- One pivot cell: the close of symbol `s` at timestamp `t`
(`aggfunc="last"`), or `none` when the cell is NaN. -/
def pivotCell (pb : List (String × Bar)) (t : Nat) (s : String) : Option ℚ :=
  ((pb.filter (fun x => x.1 == s && x.2.timestamp == t)).map (fun x => x.2.close)).getLast?

/-- `price_chart_df[[s1, s2]].dropna()` of app.py line 168: the rows of the
pivot where both selected columns are defined, in index order. -/
def corrPairs (pb : List (String × Bar)) (s1 s2 : String) : List (ℚ × ℚ) :=
  (pivotTimestamps pb).filterMap (fun t =>
    match pivotCell pb t s1, pivotCell pb t s2 with
    | some a, some b => some (a, b)
    | _, _ => none)

/-- Proof-side characterization of a pivot cell: the close of the last bar of
symbol `s` at bucket timestamp `t`, independent of the configured symbol
list. -/
def symbolCloseAt (df : List Tick) (s : String) (m t : Nat) : Option ℚ :=
  (((resample_ohlc (df.filter (fun u => u.symbol == s)) m).filter
      (fun b => b.timestamp == t)).map Bar.close).getLast?

/-- The outputs of the pair-analytics block of app.py lines 154-172. -/
structure PairOut where
  spread : List ℚ
  hedge : ℚ
  zs : List (Option ℝ)
  rollingCorr : Option (List (Option ℝ))

/-- The pair-analytics block of app.py lines 154-172: `none` with fewer than
two configured symbols; otherwise the spread, hedge value and z-score from the
aligned first two symbols, and the rolling correlation when the joined pivot
rows reach the window length.  An uncaught `InsufficientDataError` from the
unguarded `spread_and_hedge` call surfaces as `Except.error`. -/
noncomputable def analyticsBlock (rows : List Tick) (syms : List String) (w m : Nat) :
    Option (Except AErr PairOut) :=
  match syms with
  | s1 :: s2 :: rest =>
      let df := prepare_df rows
      let ab := alignPair (seriesFor rows s1) (seriesFor rows s2)
      some (match spread_and_hedge (ab.1.map Tick.price) (ab.2.map Tick.price) with
        | .error e => .error e
        | .ok sh =>
            let zs := zscore sh.1 w
            let pb := priceBarsFor df (s1 :: s2 :: rest) m
            let cp := corrPairs pb s1 s2
            let rc := if w ≤ cp.length then
                some (rolling_correlation (cp.map Prod.fst) (cp.map Prod.snd) w)
              else none
            .ok ⟨sh.1, sh.2, zs, rc⟩)
  | _ => none

/-- The streaming session state of app.py lines 21-23: the `streaming` flag
and the set of live per-symbol connection tasks. -/
structure SessionState where
  streaming : Bool
  connections : List String
deriving DecidableEq

/-- Modelled from the spec: `start_stream` (absent `ingestion` module) spawns,
for each requested symbol with no active connection, one connection task. -/
def start_stream (conns : List String) (symbols : List String) : List String :=
  symbols.foldl (fun cs sym => if sym ∈ cs then cs else cs ++ [sym]) conns

/-- Modelled from the spec: `stop_stream` (absent `ingestion` module) cancels
every active per-symbol task and waits for them to stop; safe when idle. -/
def stop_stream (conns : List String) : List String :=
  conns.filter (fun _ => false)

/-- The Start Stream button handler of app.py lines 103-110: only acts when no
session is active, then marks the session active. -/
def startHandler (s : SessionState) (symbols : List String) : SessionState :=
  if s.streaming then s
  else { streaming := true, connections := start_stream s.connections symbols }

/-- The Stop Stream button handler of app.py lines 112-114: stops the stream
and marks the session inactive. -/
def stopHandler (s : SessionState) : SessionState :=
  { streaming := false, connections := stop_stream s.connections }

/-- The ADF verdict of app.py line 210:
`"Stationary" if p < 0.05 else "Non-stationary"`. -/
def adfVerdict (p : ℚ) : String :=
  if p < 1 / 20 then "Stationary" else "Non-stationary"

/-- Python `round` to an integer: round half to even. -/
def roundHalfEven (q : ℚ) : ℤ :=
  let f := ⌊q⌋
  if q - f < 1 / 2 then f
  else if 1 / 2 < q - f then f + 1
  else if f % 2 = 0 then f else f + 1

/-- Python `round(q, 3)` from app.py line 214. -/
def pyRound3 (q : ℚ) : ℚ := (roundHalfEven (q * 1000) : ℚ) / 1000

/-- The z-score alert of app.py lines 212-216: with `latest_z` the last
non-missing z-score entry, the alert fires iff `abs(round(latest_z, 3))`
reaches the threshold; no alert is evaluated when every entry is missing. -/
def zAlertFires (zs : List (Option ℚ)) (thr : ℚ) : Option Bool :=
  match (zs.filterMap id).getLast? with
  | none => none
  | some z => some (if thr ≤ |pyRound3 z| then true else false)

/-! ### Helper lemmas -/

theorem start_stream_cons (conns : List String) (a : String) (rest : List String) :
    start_stream conns (a :: rest) =
      start_stream (if a ∈ conns then conns else conns ++ [a]) rest := rfl

theorem mem_start_stream (symbols : List String) (conns : List String) (sym : String) :
    sym ∈ start_stream conns symbols ↔ sym ∈ conns ∨ sym ∈ symbols := by
  induction symbols generalizing conns with
  | nil => simp [start_stream]
  | cons a rest ih =>
      rw [start_stream_cons]
      by_cases ha : a ∈ conns
      · rw [if_pos ha, ih]
        simp only [List.mem_cons]
        constructor
        · rintro (h | h)
          · exact Or.inl h
          · exact Or.inr (Or.inr h)
        · rintro (h | h | h)
          · exact Or.inl h
          · exact Or.inl (h ▸ ha)
          · exact Or.inr h
      · rw [if_neg ha, ih]
        simp only [List.mem_append, List.mem_singleton, List.mem_cons]
        tauto

theorem nodup_start_stream (symbols : List String) (conns : List String)
    (h : conns.Nodup) : (start_stream conns symbols).Nodup := by
  induction symbols generalizing conns with
  | nil => exact h
  | cons a rest ih =>
      rw [start_stream_cons]
      by_cases ha : a ∈ conns
      · rw [if_pos ha]; exact ih _ h
      · rw [if_neg ha]
        refine ih _ ?_
        simp [List.nodup_append, h, ha]

theorem spread_and_hedge_ok (A B : List ℚ) (sp : List ℚ) (h : ℚ)
    (hok : spread_and_hedge A B = .ok (sp, h)) :
    sp = List.zipWith (fun a b => a - h * b) A B ∧
      h = coDevSum A B / sqDevSum B ∧ ¬ (A.length < 2 ∨ B.length < 2) := by
  by_cases hlen : A.length < 2 ∨ B.length < 2
  · rw [spread_and_hedge, if_pos hlen] at hok
    exact absurd hok (by simp)
  · simp only [spread_and_hedge, if_neg hlen, Except.ok.injEq, Prod.mk.injEq] at hok
    obtain ⟨h1, h2⟩ := hok
    subst h2
    exact ⟨h1.symm, rfl, hlen⟩

theorem spread_and_hedge_self (A : List ℚ) (h2 : 2 ≤ A.length)
    (hvar : sqDevSum A ≠ 0) :
    spread_and_hedge A A = .ok (List.replicate A.length 0, 1) := by
  have hco : coDevSum A A = sqDevSum A := by
    unfold coDevSum sqDevSum
    rw [List.zipWith_same]
    simp only [pow_two]
  have hlen : ¬ (A.length < 2 ∨ A.length < 2) := by omega
  have hmap : A.map (fun a => a - 1 * a) = List.replicate A.length 0 := by
    rw [List.eq_replicate_iff]
    refine ⟨by simp, ?_⟩
    intro b hb
    rw [List.mem_map] at hb
    obtain ⟨a, _, rfl⟩ := hb
    ring
  simp only [spread_and_hedge, if_neg hlen, hco, div_self hvar]
  rw [List.zipWith_same, hmap]

/-! ### Claim theorems -/

/-- C7: the caller of `adf_test` classifies the spread as stationary exactly
when the returned p-value is below 0.05, and as non-stationary otherwise. -/
theorem c7_adf_classification (p : ℚ) :
    (adfVerdict p = "Stationary" ↔ p < 1 / 20) ∧
      (adfVerdict p = "Non-stationary" ↔ ¬ p < 1 / 20) := by
  by_cases h : p < 1 / 20 <;> simp [adfVerdict, h]

/-- C8: pressing Stop before any Start (or whenever no connection is live)
raises no exception and changes no state other than marking streaming
inactive; in particular the idle state is a fixed point. -/
theorem c8_stop_idle_noop :
    stopHandler ⟨false, []⟩ = ⟨false, []⟩ ∧
      ∀ s : SessionState, s.connections = [] →
        stopHandler s = { s with streaming := false } := by
  constructor
  · rfl
  · intro s hs
    cases s with
    | mk streaming conns =>
        simp only at hs
        simp [stopHandler, stop_stream, hs]

/-- C8 witness: stopping a streaming-flagged but connectionless session only
clears the flag. -/
theorem c8_stop_idle_noop_witness :
    stopHandler ⟨true, []⟩ = ⟨false, []⟩ :=
  c8_stop_idle_noop.2 ⟨true, []⟩ rfl

/-- C6 counterexample: starting with `["a"]` and then, while the session is
active, with the overlapping set `["a", "b"]` leaves the distinct symbol `"b"`
with zero active connections, not exactly one, because the second Start is a
complete no-op. -/
theorem c6_counterexample :
    (startHandler (startHandler ⟨false, []⟩ ["a"]) ["a", "b"]).connections.count "b" = 0 ∧
      (startHandler (startHandler ⟨false, []⟩ ["a"]) ["a", "b"]).connections.count "b" ≠ 1 := by
  decide

/-- C6 (amended): starting while a session is active is a complete no-op, so
at most one session is ever active; after an initial Start, each symbol has at
most one connection (no duplicate writers) and each symbol of the first
request has exactly one; symbols first requested by a later Start call made
while the session is active receive no connection. -/
theorem c6_start_idempotent (syms1 syms2 : List String) :
    startHandler (startHandler ⟨false, []⟩ syms1) syms2 = startHandler ⟨false, []⟩ syms1 ∧
      (startHandler ⟨false, []⟩ syms1).connections.Nodup ∧
      (∀ sym, sym ∈ (startHandler ⟨false, []⟩ syms1).connections ↔ sym ∈ syms1) ∧
      ∀ sym, sym ∈ syms1 →
        (startHandler ⟨false, []⟩ syms1).connections.count sym = 1 := by
  have h1 : startHandler ⟨false, []⟩ syms1 = ⟨true, start_stream [] syms1⟩ := rfl
  rw [h1]
  refine ⟨rfl, nodup_start_stream syms1 [] List.nodup_nil, ?_, ?_⟩
  · intro sym
    rw [show (SessionState.mk true (start_stream [] syms1)).connections =
        start_stream [] syms1 from rfl]
    rw [mem_start_stream]
    simp
  · intro sym hmem
    exact List.count_eq_one_of_mem (nodup_start_stream syms1 [] List.nodup_nil)
      ((mem_start_stream syms1 [] sym).mpr (Or.inr hmem))

/-- C6 witness (for the amended claim): the first start of `["a"]` gives the
symbol `"a"` exactly one connection. -/
theorem c6_start_idempotent_witness :
    (startHandler ⟨false, []⟩ ["a"]).connections.count "a" = 1 :=
  (c6_start_idempotent ["a"] ["a"]).2.2.2 "a" (by decide)

/-- C10: the z-score alert is evaluated only when some z-score entry is
non-missing, and it fires exactly when the absolute value of the last
non-missing entry rounded to 3 decimals reaches the threshold. -/
theorem c10_alert_rounding (zs : List (Option ℚ)) (thr : ℚ) :
    (zAlertFires zs thr = none ↔ ∀ o ∈ zs, o = none) ∧
      ∀ z, (zs.filterMap id).getLast? = some z →
        ((zAlertFires zs thr = some true ↔ thr ≤ |pyRound3 z|) ∧
          (zAlertFires zs thr = some false ↔ ¬ thr ≤ |pyRound3 z|)) := by
  unfold zAlertFires
  cases hL : (zs.filterMap id).getLast? with
  | none =>
      rw [List.getLast?_eq_none_iff, List.filterMap_eq_nil_iff] at hL
      refine ⟨⟨fun _ o ho => by simpa using hL o ho, fun _ => rfl⟩, ?_⟩
      intro z hz
      exact Option.noConfusion hz
  | some z0 =>
      refine ⟨⟨fun h => Option.noConfusion h, fun hall => ?_⟩, ?_⟩
      · have hnil : zs.filterMap id = [] := by
          rw [List.filterMap_eq_nil_iff]
          intro a ha
          simpa using hall a ha
        rw [hnil] at hL
        exact Option.noConfusion hL
      · intro z hz
        injection hz with hzz
        subst hzz
        by_cases hc : thr ≤ |pyRound3 z0| <;> simp [hc]

theorem pyRound3_19996 : pyRound3 (4999 / 2500) = 2 := by
  have hfloor : ⌊(4999 / 2500 : ℚ) * 1000⌋ = 1999 := by
    rw [Int.floor_eq_iff] <;> norm_num
  simp only [pyRound3, roundHalfEven, hfloor]
  norm_num

/-- C10 witness: at threshold 2, a latest z-score of 1.9996 (strictly below
the threshold) still fires the alert, because its 3-decimal rounding is 2.0. -/
theorem c10_alert_rounding_witness :
    zAlertFires [some (4999 / 2500)] 2 = some true ∧ |(4999 / 2500 : ℚ)| < 2 :=
  ⟨(((c10_alert_rounding [some (4999 / 2500)] 2).2 (4999 / 2500)
      rfl).1).mpr (by rw [pyRound3_19996, abs_of_pos] <;> norm_num),
    by rw [abs_of_pos] <;> norm_num⟩

/-- C5: `spread_and_hedge` on fewer than 2 aligned points fails with
`InsufficientDataError`; the analytics block of app.py calls it unguarded, so
on a tick set where the second symbol has no data the error propagates out of
the block (the script run crashes) instead of being treated as
"not yet computable". -/
theorem c5_insufficient_data (A B : List ℚ) :
    (A.length < 2 ∨ B.length < 2 →
        spread_and_hedge A B = .error .insufficientData) ∧
      analyticsBlock [⟨"btcusdt", 0, 100, 1⟩] ["btcusdt", "ethusdt"] 50 60000 =
        some (.error .insufficientData) := by
  constructor
  · intro hlen
    rw [spread_and_hedge, if_pos hlen]
  · rfl

/-- C5 witness: the empty aligned pair triggers `InsufficientDataError`. -/
theorem c5_insufficient_data_witness :
    spread_and_hedge [] [] = .error .insufficientData :=
  (c5_insufficient_data [] []).1 (Or.inl (by decide))

/-- C2: a successful `spread_and_hedge` returns the ordinary-least-squares
slope of `priceA` on `priceB` as the hedge value, with
`spread[i] = priceA[i] - slope * priceB[i]`; applied to any series against
itself (with at least 2 points and nonzero variance, where the regression is
defined) the slope is exactly 1 and every spread entry is exactly 0. -/
theorem c2_hedge_and_spread (A B : List ℚ) :
    (∀ sp h, spread_and_hedge A B = .ok (sp, h) →
        h = coDevSum A B / sqDevSum B ∧
          sp.length = min A.length B.length ∧
          ∀ i (hi : i < sp.length), sp[i] = A.getD i 0 - h * B.getD i 0) ∧
      (2 ≤ A.length → sqDevSum A ≠ 0 →
        spread_and_hedge A A = .ok (List.replicate A.length 0, 1)) := by
  constructor
  · intro sp h hok
    obtain ⟨hsp, hh, _⟩ := spread_and_hedge_ok A B sp h hok
    subst hsp
    refine ⟨hh, by simp, ?_⟩
    intro i hi
    rw [List.length_zipWith] at hi
    have hiA : i < A.length := lt_of_lt_of_le hi (min_le_left _ _)
    have hiB : i < B.length := lt_of_lt_of_le hi (min_le_right _ _)
    rw [List.getElem_zipWith, List.getD_eq_getElem A 0 hiA,
      List.getD_eq_getElem B 0 hiB]
  · exact spread_and_hedge_self A

/-- C2 witness: on the identical pair `[1, 2]`, the hedge value is 1 and the
spread is identically zero. -/
theorem c2_hedge_and_spread_witness :
    spread_and_hedge [1, 2] [1, 2] = .ok ([0, 0], 1) := by
  have h := (c2_hedge_and_spread [1, 2] [1, 2]).2 (by norm_num)
    (by norm_num [sqDevSum, mean])
  exact h

theorem alignPair_min_length (A B : List Tick) :
    min (alignPair A B).1.length (alignPair A B).2.length =
      min A.length B.length := by
  simp only [alignPair]
  by_cases h : min A.length B.length = 0
  · rw [if_pos h]
  · rw [if_neg h]
    simp only [List.length_drop]
    omega

/-- C1 counterexample: with the second series empty, `n = min = 0` and Python
`iloc[-0:]` keeps the whole first series, so the longer series is not
truncated to the common minimum length 0. -/
theorem c1_pair_alignment_counterexample :
    (alignPair [⟨"a", 0, 1, 1⟩] []).1 = [⟨"a", 0, 1, 1⟩] ∧
      (alignPair [⟨"a", 0, 1, 1⟩] []).1.length ≠
        min ([⟨"a", 0, 1, 1⟩] : List Tick).length ([] : List Tick).length := by
  decide

/-- C1 (amended): whenever both symbol series are nonempty, the pair block
aligns them to the most recent `min(len A, len B)` observations of each (both
aligned halves have length `min`); when at least one series is empty
(`n = 0`), `iloc[-0:]` keeps both series whole.  In every case each aligned
half is a suffix of its series (only oldest observations are ever dropped),
the selection is purely positional (stable under any per-tick rewriting, so
no timestamp join is involved), and the spread the block computes has length
`min(len A, len B)`. -/
theorem c1_pair_alignment (A B : List Tick) :
    (0 < min A.length B.length →
        (alignPair A B).1.length = min A.length B.length ∧
          (alignPair A B).2.length = min A.length B.length) ∧
      (min A.length B.length = 0 → alignPair A B = (A, B)) ∧
      (alignPair A B).1 <:+ A ∧
      (alignPair A B).2 <:+ B ∧
      (∀ f g : Tick → Tick, alignPair (A.map f) (B.map g) =
          ((alignPair A B).1.map f, (alignPair A B).2.map g)) ∧
      ∀ rows s1 s2 rest w m sp h zs rc,
        analyticsBlock rows (s1 :: s2 :: rest) w m = some (.ok ⟨sp, h, zs, rc⟩) →
          sp.length = min (seriesFor rows s1).length (seriesFor rows s2).length := by
  refine ⟨?_, ?_, ?_, ?_, ?_, ?_⟩
  · intro hmin
    have hne : ¬ min A.length B.length = 0 := by omega
    simp only [alignPair, if_neg hne, List.length_drop]
    omega
  · intro hmin
    simp only [alignPair, if_pos hmin]
  · simp only [alignPair]
    by_cases h : min A.length B.length = 0
    · rw [if_pos h]
    · rw [if_neg h]
      exact List.drop_suffix _ _
  · simp only [alignPair]
    by_cases h : min A.length B.length = 0
    · rw [if_pos h]
    · rw [if_neg h]
      exact List.drop_suffix _ _
  · intro f g
    simp only [alignPair, List.length_map]
    by_cases h : min A.length B.length = 0
    · rw [if_pos h, if_pos h]
    · rw [if_neg h, if_neg h]
      rw [← List.map_drop, ← List.map_drop]
  · intro rows s1 s2 rest w m sp h zs rc hok
    simp only [analyticsBlock] at hok
    cases hsh : spread_and_hedge
        ((alignPair (seriesFor rows s1) (seriesFor rows s2)).1.map Tick.price)
        ((alignPair (seriesFor rows s1) (seriesFor rows s2)).2.map Tick.price) with
    | error e =>
        rw [hsh] at hok
        simp at hok
    | ok sh =>
        rw [hsh] at hok
        simp only [Option.some.injEq, Except.ok.injEq, PairOut.mk.injEq] at hok
        obtain ⟨hsp, _, _, _⟩ := hok
        obtain ⟨hzip, _, _⟩ := spread_and_hedge_ok _ _ sh.1 sh.2 (by rw [hsh])
        rw [← hsp, hzip, List.length_zipWith, List.length_map, List.length_map]
        exact alignPair_min_length _ _

theorem analyticsBlock_example :
    analyticsBlock [⟨"a", 0, 1, 1⟩, ⟨"a", 1, 3, 1⟩, ⟨"b", 0, 1, 1⟩, ⟨"b", 1, 3, 1⟩]
        ["a", "b"] 50 1000 =
      some (.ok ⟨[0, 0], 1, [none, none], none⟩) := by
  norm_num [analyticsBlock, seriesFor, prepare_df, sortByTs,
    alignPair, spread_and_hedge, coDevSum, sqDevSum,
    mean, zscore, windowAt, svar, priceBarsFor,
    resample_ohlc, bucketStart, pivotTimestamps, pivotCell,
    corrPairs, List.insertionSort, List.orderedInsert, tsLE, List.dedup,
    List.filter, List.filterMap, List.range, List.range.loop,
    List.getLast?, List.getLast,
    show (("b" : String) == "a") = false from by decide,
    show (("a" : String) == "b") = false from by decide,
    show (("a" : String) == "a") = true from by decide,
    show (("b" : String) == "b") = true from by decide]

/-- C1 witness: on a nonempty pair of one-tick series the aligned halves both
have the common minimum length 1, and on a concrete two-symbol tick set the
spread computed by the pair block has the truncated common length of the two
per-symbol series. -/
theorem c1_pair_alignment_witness :
    ((alignPair [⟨"a", 0, 1, 1⟩] [⟨"b", 0, 2, 1⟩]).1.length = 1 ∧
        (alignPair [⟨"a", 0, 1, 1⟩] [⟨"b", 0, 2, 1⟩]).2.length = 1) ∧
      ([(0 : ℚ), 0] : List ℚ).length =
        min (seriesFor [⟨"a", 0, 1, 1⟩, ⟨"a", 1, 3, 1⟩, ⟨"b", 0, 1, 1⟩, ⟨"b", 1, 3, 1⟩] "a").length
          (seriesFor [⟨"a", 0, 1, 1⟩, ⟨"a", 1, 3, 1⟩, ⟨"b", 0, 1, 1⟩, ⟨"b", 1, 3, 1⟩] "b").length :=
  ⟨(c1_pair_alignment [⟨"a", 0, 1, 1⟩] [⟨"b", 0, 2, 1⟩]).1 (by decide),
    (c1_pair_alignment
        (seriesFor [⟨"a", 0, 1, 1⟩, ⟨"a", 1, 3, 1⟩, ⟨"b", 0, 1, 1⟩, ⟨"b", 1, 3, 1⟩] "a")
        (seriesFor [⟨"a", 0, 1, 1⟩, ⟨"a", 1, 3, 1⟩, ⟨"b", 0, 1, 1⟩, ⟨"b", 1, 3, 1⟩] "b")).2.2.2.2.2
      [⟨"a", 0, 1, 1⟩, ⟨"a", 1, 3, 1⟩, ⟨"b", 0, 1, 1⟩, ⟨"b", 1, 3, 1⟩] "a" "b" [] 50 1000
      [0, 0] 1 [none, none] none analyticsBlock_example⟩

theorem zscore_entry (l : List ℚ) (w i : Nat) (hi : i < l.length) :
    (zscore l w)[i]? =
      some (if i + 1 < w then none
        else if svar (windowAt l w i) = 0 then none
        else some (((l.getD i 0 - mean (windowAt l w i) : ℚ) : ℝ) /
          Real.sqrt ((svar (windowAt l w i) : ℚ) : ℝ))) := by
  unfold zscore
  rw [List.getElem?_map, List.getElem?_range hi]
  rfl

theorem rolling_correlation_entry (A B : List ℚ) (w i : Nat)
    (hi : i < min A.length B.length) :
    (rolling_correlation A B w)[i]? =
      some (if i + 1 < w then none
        else if svar (windowAt A w i) = 0 ∨ svar (windowAt B w i) = 0 then none
        else some (((scov (windowAt A w i) (windowAt B w i) : ℚ) : ℝ) /
          (Real.sqrt ((svar (windowAt A w i) : ℚ) : ℝ) *
            Real.sqrt ((svar (windowAt B w i) : ℚ) : ℝ)))) := by
  unfold rolling_correlation
  rw [List.getElem?_map, List.getElem?_range hi]
  rfl

/-- C3: for every window of at least 1, entry `i` of `zscore` is missing
(`none` — not zero, not an error, not an infinity) exactly when `i < w - 1`
(warm-up) or the rolling variance of the trailing window at `i` is zero, and
defined (some value) otherwise; `rolling_correlation` follows the same policy
with either window variance zero as the degenerate case. -/
theorem c3_missing_policy (l A B : List ℚ) (w : Nat) (hw : 1 ≤ w) :
    (∀ i, i < l.length →
        (((zscore l w)[i]? = some none ↔
            i < w - 1 ∨ svar (windowAt l w i) = 0) ∧
          (¬ (i < w - 1 ∨ svar (windowAt l w i) = 0) →
            ∃ r : ℝ, (zscore l w)[i]? = some (some r)))) ∧
      ∀ i, i < min A.length B.length →
        (((rolling_correlation A B w)[i]? = some none ↔
            i < w - 1 ∨ svar (windowAt A w i) = 0 ∨ svar (windowAt B w i) = 0) ∧
          (¬ (i < w - 1 ∨ svar (windowAt A w i) = 0 ∨ svar (windowAt B w i) = 0) →
            ∃ r : ℝ, (rolling_correlation A B w)[i]? = some (some r))) := by
  constructor
  · intro i hi
    rw [zscore_entry l w i hi]
    by_cases h1 : i + 1 < w
    · rw [if_pos h1]
      exact ⟨⟨fun _ => Or.inl (by omega), fun _ => rfl⟩,
        fun hcon => absurd (Or.inl (by omega)) hcon⟩
    · rw [if_neg h1]
      by_cases h2 : svar (windowAt l w i) = 0
      · rw [if_pos h2]
        exact ⟨⟨fun _ => Or.inr h2, fun _ => rfl⟩,
          fun hcon => absurd (Or.inr h2) hcon⟩
      · rw [if_neg h2]
        refine ⟨⟨fun hfalse => ?_, fun hcon => ?_⟩, fun _ => ⟨_, rfl⟩⟩
        · simp at hfalse
        · rcases hcon with hcon | hcon
          · omega
          · exact absurd hcon h2
  · intro i hi
    rw [rolling_correlation_entry A B w i hi]
    by_cases h1 : i + 1 < w
    · rw [if_pos h1]
      exact ⟨⟨fun _ => Or.inl (by omega), fun _ => rfl⟩,
        fun hcon => absurd (Or.inl (by omega)) hcon⟩
    · rw [if_neg h1]
      by_cases h2 : svar (windowAt A w i) = 0 ∨ svar (windowAt B w i) = 0
      · rw [if_pos h2]
        exact ⟨⟨fun _ => Or.inr h2, fun _ => rfl⟩,
          fun hcon => absurd (Or.inr h2) hcon⟩
      · rw [if_neg h2]
        refine ⟨⟨fun hfalse => ?_, fun hcon => ?_⟩, fun _ => ⟨_, rfl⟩⟩
        · simp at hfalse
        · rcases hcon with hcon | hcon
          · omega
          · exact absurd hcon h2

/-- C3 witness: with window 2, entry 1 of the z-score of `[1, 1, 2]` is
missing because the trailing window `[1, 1]` has zero variance. -/
theorem c3_missing_policy_witness :
    (zscore [1, 1, 2] 2)[1]? = some none :=
  (((c3_missing_policy [1, 1, 2] [] [] 2 (by norm_num)).1 1
      (by norm_num)).1).mpr
    (Or.inr (by rw [show windowAt [1, 1, 2] 2 1 = [1, 1] from rfl]
                norm_num [svar, sqDevSum, mean]))

theorem le_foldl_max (ps : List ℚ) : ∀ p, p ≤ ps.foldl max p := by
  induction ps with
  | nil => intro p; exact le_refl p
  | cons a ps ih =>
      intro p
      rw [List.foldl_cons]
      exact le_trans (le_max_left p a) (ih (max p a))

theorem mem_le_foldl_max (ps : List ℚ) : ∀ p x, x ∈ ps → x ≤ ps.foldl max p := by
  induction ps with
  | nil => intro p x hx; cases hx
  | cons a ps ih =>
      intro p x hx
      rw [List.foldl_cons]
      rcases List.mem_cons.mp hx with rfl | hx
      · exact le_trans (le_max_right p x) (le_foldl_max ps (max p x))
      · exact ih (max p a) x hx

theorem foldl_min_le (ps : List ℚ) : ∀ p, ps.foldl min p ≤ p := by
  induction ps with
  | nil => intro p; exact le_refl p
  | cons a ps ih =>
      intro p
      rw [List.foldl_cons]
      exact le_trans (ih (min p a)) (min_le_left p a)

theorem foldl_min_le_mem (ps : List ℚ) : ∀ p x, x ∈ ps → ps.foldl min p ≤ x := by
  induction ps with
  | nil => intro p x hx; cases hx
  | cons a ps ih =>
      intro p x hx
      rw [List.foldl_cons]
      rcases List.mem_cons.mp hx with rfl | hx
      · exact le_trans (foldl_min_le ps (min p x)) (min_le_right p x)
      · exact ih (min p a) x hx

theorem filterMap_sublist_self {α : Type} (hf : α → Option α) (l : List α)
    (h : ∀ a, hf a = none ∨ hf a = some a) : (l.filterMap hf).Sublist l := by
  induction l with
  | nil => simp
  | cons a l ih =>
      rw [List.filterMap_cons]
      rcases h a with ha | ha
      · rw [ha]
        exact ih.trans (List.sublist_cons_self a l)
      · rw [ha]
        exact ih.cons₂ a

theorem bucketStart_mono (m : Nat) {a b : Nat} (h : a ≤ b) :
    bucketStart m a ≤ bucketStart m b :=
  Nat.mul_le_mul_right m (Nat.div_le_div_right h)

theorem resample_keys_sorted (ticks : List Tick) (m : Nat) :
    (((sortByTs ticks).map (fun t => bucketStart m t.timestamp)).dedup).Sorted (· < ·) := by
  have hs : (sortByTs ticks).Sorted tsLE := List.sorted_insertionSort tsLE ticks
  have hle : (((sortByTs ticks).map (fun t => bucketStart m t.timestamp)).dedup).Pairwise
      (· ≤ ·) := by
    exact List.Pairwise.sublist (List.dedup_sublist _)
      (List.pairwise_map.mpr (hs.imp (fun hab => bucketStart_mono m hab)))
  have hne : (((sortByTs ticks).map (fun t => bucketStart m t.timestamp)).dedup).Pairwise
      (· ≠ ·) := List.nodup_dedup _
  exact (hle.and hne).imp (fun hab => lt_of_le_of_ne hab.1 hab.2)

theorem resample_ohlc_eq (ticks : List Tick) (m : Nat) :
    resample_ohlc ticks m =
      (((sortByTs ticks).map (fun t => bucketStart m t.timestamp)).dedup).filterMap
        (fun k =>
          match ((sortByTs ticks).filter
              (fun t => bucketStart m t.timestamp == k)).map Tick.price with
          | [] => none
          | p :: ps => some ⟨k, p, ps.foldl max p, ps.foldl min p, ps.getLastD p⟩) := rfl

theorem mem_resample_ohlc (ticks : List Tick) (m : Nat) (b : Bar) :
    b ∈ resample_ohlc ticks m ↔
      ∃ k, k ∈ ((sortByTs ticks).map (fun t => bucketStart m t.timestamp)).dedup ∧
        ∃ p ps, ((sortByTs ticks).filter
            (fun t => bucketStart m t.timestamp == k)).map Tick.price = p :: ps ∧
          b = ⟨k, p, ps.foldl max p, ps.foldl min p, ps.getLastD p⟩ := by
  rw [resample_ohlc_eq, List.mem_filterMap]
  constructor
  · rintro ⟨k, hk, hfk⟩
    cases h : ((sortByTs ticks).filter
        (fun t => bucketStart m t.timestamp == k)).map Tick.price with
    | nil =>
        rw [h] at hfk
        exact absurd hfk (by simp)
    | cons p ps =>
        rw [h] at hfk
        simp only [Option.some.injEq] at hfk
        exact ⟨k, hk, p, ps, h, hfk.symm⟩
  · rintro ⟨k, hk, p, ps, h, rfl⟩
    exact ⟨k, hk, by rw [h]⟩

/-- C4: resampling never errors (the empty tick list yields the empty bar
list); bar timestamps are strictly increasing; every bar satisfies
`low ≤ open ≤ high` and `low ≤ close ≤ high`; the bucket of every emitted bar
contains at least one tick (empty buckets are omitted) and the bucket of
every tick is represented by a bar. -/
theorem c4_resample (ticks : List Tick) (m : Nat) :
    resample_ohlc [] m = [] ∧
      ((resample_ohlc ticks m).map Bar.timestamp).Sorted (· < ·) ∧
      (∀ b ∈ resample_ohlc ticks m,
          b.low ≤ b.op ∧ b.op ≤ b.high ∧ b.low ≤ b.close ∧ b.close ≤ b.high) ∧
      (∀ b ∈ resample_ohlc ticks m,
          ∃ t ∈ ticks, bucketStart m t.timestamp = b.timestamp) ∧
      ∀ t ∈ ticks, ∃ b ∈ resample_ohlc ticks m,
        b.timestamp = bucketStart m t.timestamp := by
  refine ⟨rfl, ?_, ?_, ?_, ?_⟩
  · rw [resample_ohlc_eq, List.map_filterMap]
    have hsub : List.Sublist
        ((((sortByTs ticks).map (fun t => bucketStart m t.timestamp)).dedup).filterMap
          (fun k =>
            Option.map Bar.timestamp
              (match ((sortByTs ticks).filter
                  (fun t => bucketStart m t.timestamp == k)).map Tick.price with
              | [] => none
              | p :: ps =>
                  some ⟨k, p, ps.foldl max p, ps.foldl min p, ps.getLastD p⟩)))
        (((sortByTs ticks).map (fun t => bucketStart m t.timestamp)).dedup) := by
      refine filterMap_sublist_self _ _ ?_
      intro k
      cases h : ((sortByTs ticks).filter
          (fun t => bucketStart m t.timestamp == k)).map Tick.price with
      | nil => exact Or.inl rfl
      | cons p ps => exact Or.inr rfl
    exact List.Pairwise.sublist hsub (resample_keys_sorted ticks m)
  · intro b hb
    obtain ⟨k, _, p, ps, _, rfl⟩ := (mem_resample_ohlc ticks m b).mp hb
    have hcl := List.getLastD_mem_cons ps p
    refine ⟨foldl_min_le ps p, le_foldl_max ps p, ?_, ?_⟩
    · rcases List.mem_cons.mp hcl with hc | hc
      · rw [hc]; exact foldl_min_le ps p
      · exact foldl_min_le_mem ps p _ hc
    · rcases List.mem_cons.mp hcl with hc | hc
      · rw [hc]; exact le_foldl_max ps p
      · exact mem_le_foldl_max ps p _ hc
  · intro b hb
    obtain ⟨k, _, p, ps, hmap, rfl⟩ := (mem_resample_ohlc ticks m b).mp hb
    cases hF : (sortByTs ticks).filter (fun t => bucketStart m t.timestamp == k) with
    | nil => rw [hF] at hmap; exact absurd hmap (by simp)
    | cons t F =>
        have htmem : t ∈ (sortByTs ticks).filter
            (fun t => bucketStart m t.timestamp == k) := by
          rw [hF]; exact List.mem_cons_self t F
        rw [List.mem_filter] at htmem
        refine ⟨t, ?_, ?_⟩
        · exact (List.perm_insertionSort tsLE ticks).mem_iff.mp htmem.1
        · exact eq_of_beq htmem.2
  · intro t ht
    have hts : t ∈ sortByTs ticks :=
      (List.perm_insertionSort tsLE ticks).mem_iff.mpr ht
    have hk : bucketStart m t.timestamp ∈
        ((sortByTs ticks).map (fun t => bucketStart m t.timestamp)).dedup :=
      List.mem_dedup.mpr (List.mem_map.mpr ⟨t, hts, rfl⟩)
    have htf : t ∈ (sortByTs ticks).filter
        (fun u => bucketStart m u.timestamp == bucketStart m t.timestamp) := by
      rw [List.mem_filter]
      exact ⟨hts, by simp⟩
    cases hF : (sortByTs ticks).filter
        (fun u => bucketStart m u.timestamp == bucketStart m t.timestamp) with
    | nil => rw [hF] at htf; cases htf
    | cons u F =>
        refine ⟨⟨bucketStart m t.timestamp, u.price,
          (F.map Tick.price).foldl max u.price, (F.map Tick.price).foldl min u.price,
          (F.map Tick.price).getLastD u.price⟩, ?_, rfl⟩
        rw [mem_resample_ohlc]
        exact ⟨bucketStart m t.timestamp, hk, u.price, F.map Tick.price,
          by rw [hF]; rfl, rfl⟩

/-- C4 witness: the spec scenario — three ticks at 0 ms, 500 ms and 1200 ms
resampled at 1 s — produces the bar at bucket 0 with
`low ≤ open ≤ high` and `low ≤ close ≤ high`. -/
theorem c4_resample_witness :
    (⟨0, 100, 101, 100, 101⟩ : Bar).low ≤ (⟨0, 100, 101, 100, 101⟩ : Bar).op ∧
      (⟨0, 100, 101, 100, 101⟩ : Bar).op ≤ (⟨0, 100, 101, 100, 101⟩ : Bar).high ∧
      (⟨0, 100, 101, 100, 101⟩ : Bar).low ≤ (⟨0, 100, 101, 100, 101⟩ : Bar).close ∧
      (⟨0, 100, 101, 100, 101⟩ : Bar).close ≤ (⟨0, 100, 101, 100, 101⟩ : Bar).high :=
  (c4_resample [⟨"a", 0, 100, 1⟩, ⟨"a", 500, 101, 1⟩, ⟨"a", 1200, 99, 1⟩] 1000).2.2.1
    ⟨0, 100, 101, 100, 101⟩
    (by rw [mem_resample_ohlc]
        refine ⟨0, by norm_num [sortByTs, List.insertionSort, List.orderedInsert, tsLE,
          bucketStart, List.dedup], 100, [101], ?_, rfl⟩
        norm_num [sortByTs, List.insertionSort, List.orderedInsert, tsLE, bucketStart])

theorem cellList_flatMap (df : List Tick) (syms : List String) (m : Nat)
    (s : String) (t : Nat) :
    ((priceBarsFor df syms m).filter
        (fun x => x.1 == s && x.2.timestamp == t)).map (fun x => x.2.close) =
      syms.flatMap (fun sym =>
        if sym == s
        then ((resample_ohlc (df.filter (fun u => u.symbol == s)) m).filter
            (fun b => b.timestamp == t)).map Bar.close
        else []) := by
  induction syms with
  | nil => rfl
  | cons sym syms ih =>
      rw [show priceBarsFor df (sym :: syms) m =
          (resample_ohlc (df.filter (fun u => u.symbol == sym)) m).map
            (fun b => (sym, b)) ++ priceBarsFor df syms m from rfl]
      rw [List.filter_append, List.map_append, ih, List.flatMap_cons]
      congr 1
      rw [List.filter_map]
      by_cases hss : sym = s
      · subst hss
        rw [if_pos (by simp)]
        rw [List.map_map]
        have hfil : List.filter ((fun x : String × Bar => x.1 == sym && x.2.timestamp == t) ∘
            (fun b => (sym, b)))
              (resample_ohlc (List.filter (fun u => u.symbol == sym) df) m) =
            List.filter (fun b => b.timestamp == t)
              (resample_ohlc (List.filter (fun u => u.symbol == sym) df) m) := by
          apply List.filter_congr
          intro b _
          simp
        rw [hfil]
        rfl
      · rw [if_neg (by simp [hss])]
        have hfalse : ∀ b ∈ resample_ohlc (df.filter (fun u => u.symbol == sym)) m,
            (((fun x : String × Bar => x.1 == s && x.2.timestamp == t) ∘
              (fun b => (sym, b))) b) = false := by
          intro b _
          simp [hss]
        rw [List.filter_eq_nil_iff.mpr ?_]
        · rfl
        · intro b hb
          rw [hfalse b hb]
          exact Bool.false_ne_true

theorem getLast_flatMap_if {α : Type} (syms : List String) (s : String)
    (cs : List α) (hs : s ∈ syms) :
    (syms.flatMap (fun sym => if sym == s then cs else [])).getLast? =
      cs.getLast? := by
  induction syms with
  | nil => cases hs
  | cons a syms ih =>
      rw [List.flatMap_cons, List.getLast?_append]
      by_cases hmem : s ∈ syms
      · rw [ih hmem]
        cases hcs : cs.getLast? with
        | none =>
            have hnil : cs = [] := List.getLast?_eq_none_iff.mp hcs
            subst hnil
            simp
        | some c => rfl
      · have ha : a = s := by
          rcases List.mem_cons.mp hs with h | h
          · exact h.symm
          · exact absurd h hmem
        subst ha
        have hnil : syms.flatMap (fun sym => if sym == a then cs else []) = [] := by
          rw [List.flatMap_eq_nil_iff]
          intro x hx
          rw [if_neg ?_]
          simp only [beq_iff_eq]
          intro hxa
          exact hmem (hxa ▸ hx)
        rw [hnil]
        simp

theorem pivotCell_canonical (df : List Tick) (syms : List String) (m : Nat)
    (s : String) (t : Nat) (hs : s ∈ syms) :
    pivotCell (priceBarsFor df syms m) t s = symbolCloseAt df s m t := by
  unfold pivotCell symbolCloseAt
  rw [cellList_flatMap]
  exact getLast_flatMap_if syms s _ hs

theorem mem_pivotTimestamps_of_close (df : List Tick) (syms : List String)
    (m : Nat) (s : String) (t : Nat) (a : ℚ) (hs : s ∈ syms)
    (hc : symbolCloseAt df s m t = some a) :
    t ∈ pivotTimestamps (priceBarsFor df syms m) := by
  unfold symbolCloseAt at hc
  have hne : (resample_ohlc (df.filter (fun u => u.symbol == s)) m).filter
      (fun b => b.timestamp == t) ≠ [] := by
    intro hnil
    rw [hnil] at hc
    simp at hc
  obtain ⟨b, hb⟩ := List.exists_mem_of_ne_nil _ hne
  rw [List.mem_filter] at hb
  have hbt : b.timestamp = t := eq_of_beq hb.2
  unfold pivotTimestamps
  rw [List.mem_insertionSort, List.mem_dedup, List.mem_map]
  refine ⟨(s, b), ?_, hbt⟩
  unfold priceBarsFor
  rw [List.mem_flatMap]
  exact ⟨s, hs, List.mem_map.mpr ⟨b, hb.1, rfl⟩⟩

theorem filterMap_eq_filterMap_filter {α β : Type} (f : α → Option β)
    (l : List α) :
    l.filterMap f = (l.filter (fun a => (f a).isSome)).filterMap f := by
  induction l with
  | nil => rfl
  | cons a l ih =>
      rw [List.filterMap_cons, List.filter_cons]
      cases hf : f a with
      | none => simp [hf, ih]
      | some b => simp [hf, List.filterMap_cons, ih]

theorem nodup_pivotTimestamps (pb : List (String × Bar)) :
    (pivotTimestamps pb).Nodup := by
  unfold pivotTimestamps
  exact (List.perm_insertionSort _ _).nodup_iff.mpr (List.nodup_dedup _)

theorem sorted_pivotTimestamps (pb : List (String × Bar)) :
    (pivotTimestamps pb).Sorted (· ≤ ·) :=
  List.sorted_insertionSort _ _

theorem corrPairs_pair_only (df : List Tick) (m : Nat) (s1 s2 : String)
    (syms1 syms2 : List String) (h11 : s1 ∈ syms1) (h21 : s2 ∈ syms1)
    (h12 : s1 ∈ syms2) (h22 : s2 ∈ syms2) :
    corrPairs (priceBarsFor df syms1 m) s1 s2 =
      corrPairs (priceBarsFor df syms2 m) s1 s2 := by
  have hfun : ∀ (syms : List String), s1 ∈ syms → s2 ∈ syms →
      corrPairs (priceBarsFor df syms m) s1 s2 =
        (pivotTimestamps (priceBarsFor df syms m)).filterMap (fun t =>
          match symbolCloseAt df s1 m t, symbolCloseAt df s2 m t with
          | some a, some b => some (a, b)
          | _, _ => none) := by
    intro syms hsa hsb
    unfold corrPairs
    refine List.filterMap_congr ?_
    intro t _
    rw [pivotCell_canonical df syms m s1 t hsa, pivotCell_canonical df syms m s2 t hsb]
  rw [hfun syms1 h11 h21, hfun syms2 h12 h22]
  rw [filterMap_eq_filterMap_filter, filterMap_eq_filterMap_filter
    (l := pivotTimestamps (priceBarsFor df syms2 m))]
  have hiff : ∀ t, ((fun t =>
      match symbolCloseAt df s1 m t, symbolCloseAt df s2 m t with
      | some a, some b => some (a, b)
      | _, _ => none) t).isSome = true ↔
      (∃ a, symbolCloseAt df s1 m t = some a) ∧
        ∃ b, symbolCloseAt df s2 m t = some b := by
    intro t
    cases hc1 : symbolCloseAt df s1 m t with
    | none => simp [hc1]
    | some a =>
        cases hc2 : symbolCloseAt df s2 m t with
        | none => simp [hc1, hc2]
        | some b => simp [hc1, hc2]
  have hmem : ∀ t, t ∈ (pivotTimestamps (priceBarsFor df syms1 m)).filter (fun t =>
        ((fun t => match symbolCloseAt df s1 m t, symbolCloseAt df s2 m t with
          | some a, some b => some (a, b)
          | _, _ => none) t).isSome) ↔
      t ∈ (pivotTimestamps (priceBarsFor df syms2 m)).filter (fun t =>
        ((fun t => match symbolCloseAt df s1 m t, symbolCloseAt df s2 m t with
          | some a, some b => some (a, b)
          | _, _ => none) t).isSome) := by
    intro t
    rw [List.mem_filter, List.mem_filter]
    constructor
    · intro ⟨_, hp⟩
      refine ⟨?_, hp⟩
      obtain ⟨⟨a, ha⟩, _⟩ := (hiff t).mp hp
      exact mem_pivotTimestamps_of_close df syms2 m s1 t a h12 ha
    · intro ⟨_, hp⟩
      refine ⟨?_, hp⟩
      obtain ⟨⟨a, ha⟩, _⟩ := (hiff t).mp hp
      exact mem_pivotTimestamps_of_close df syms1 m s1 t a h11 ha
  have hperm := (List.perm_ext_iff_of_nodup
    ((nodup_pivotTimestamps (priceBarsFor df syms1 m)).filter _)
    ((nodup_pivotTimestamps (priceBarsFor df syms2 m)).filter _)).mpr hmem
  congr 1
  exact List.eq_of_perm_of_sorted hperm
    ((sorted_pivotTimestamps _).filter _) ((sorted_pivotTimestamps _).filter _)

/-- C9: with at least two configured symbols, every pair statistic (spread,
hedge value, z-score, rolling correlation, and hence the spread fed to the
ADF test) is computed exclusively from the first two symbols in list order:
replacing the symbols beyond the first two by any other list leaves the whole
pair-analytics block unchanged. -/
theorem c9_pair_uses_first_two (rows : List Tick) (s1 s2 : String)
    (rest rest2 : List String) (w m : Nat) :
    analyticsBlock rows (s1 :: s2 :: rest) w m =
      analyticsBlock rows (s1 :: s2 :: rest2) w m := by
  simp only [analyticsBlock]
  have hcp : corrPairs (priceBarsFor (prepare_df rows) (s1 :: s2 :: rest) m) s1 s2 =
      corrPairs (priceBarsFor (prepare_df rows) (s1 :: s2 :: rest2) m) s1 s2 :=
    corrPairs_pair_only (prepare_df rows) m s1 s2 _ _ (by simp) (by simp)
      (by simp) (by simp)
  simp only [hcp]

end Gemscap
